import Mathlib

/-!
Verification of the instance-reconstruction and series-materialization core of
the cloud-dicom-downloader repository.

The Lean definitions below are shallow embeddings of the Python functions in
`src/crawlers/_utils.py`, `src/crawlers/hinacom.py`, `src/crawlers/tdcloud.py`
and `src/crawlers/xa_data.py`.  Python strings are embedded as `List Char`,
byte strings as `List Nat` (each entry a byte value), fallible code as
`Except`/`Option`, and the file system as an explicit state value.
-/

set_option maxRecDepth 4000

/-- Definition: `chars s` is the character list of a string literal; Python strings are
embedded as `List Char` throughout. -/
def chars (s : String) : List Char := s.data

/-! ### `pathify` (`src/crawlers/_utils.py` lines 100-123)

`_illegal_path_chars = re.compile(r'[<>:"/\\?*|]')` is a single-character
class, so `re.sub` is a character-wise map over the string; `_to_full_width`
is the replacement function, and `pathify` strips surrounding whitespace
first (`text.strip()`).
-/

/-- The characters matched by `_illegal_path_chars`. -/
def illegalPathChars : List Char := ['<', '>', ':', (Char.ofNat 34), '/', '\\', '?', '*', '|']

/-- Embedding of `_to_full_width` (lines 103-115): replacement for one matched character.
`Char.ofNat 34` is the double quote, `Char.ofNat 39` the apostrophe. -/
def toFullWidth (c : Char) : Char :=
  if c = ':' then '：'
  else if c = '*' then '＊'
  else if c = '?' then '？'
  else if c = Char.ofNat 34 then Char.ofNat 39
  else if c = '|' then '｜'
  else if c = '<' then '＜'
  else if c = '>' then '＞'
  else if c = '/' then '／'
  else if c = '\\' then '＼'
  else c

/-- One character of `_illegal_path_chars.sub(_to_full_width, ·)`: replaced
when it matches the class, untouched otherwise. -/
def subIllegalChar (c : Char) : Char :=
  if illegalPathChars.contains c then toFullWidth c else c

/-- Embedding of `_illegal_path_chars.sub(_to_full_width, s)`: the class is one character
wide, so the substitution is a map. -/
def subIllegal (s : List Char) : List Char := s.map subIllegalChar

/-- Whitespace characters removed by Python `str.strip()` (the ASCII ones;
none of the replacement characters produced above is whitespace of any kind,
which is all the idempotence proof needs). -/
def isPySpace (c : Char) : Bool :=
  c = ' ' || c = Char.ofNat 9 || c = Char.ofNat 10 || c = Char.ofNat 11 ||
  c = Char.ofNat 12 || c = Char.ofNat 13

/-- Python `str.strip()`: drop whitespace from both ends. -/
def pyStrip (s : List Char) : List Char :=
  ((s.dropWhile isPySpace).reverse.dropWhile isPySpace).reverse

/-- Embedding of `pathify` (lines 118-123). -/
def pathify (s : List Char) : List Char := subIllegal (pyStrip s)

/-! ### Decimal rendering and parsing of numbers

Python renders `f"{index + 1}"` and `f"({n})"` in standard decimal.  The
embedding renders with `digitsAux`/`natDigits` (fuelled so that every
definition reduces by evaluation) and parses with `digitsVal`.
-/

/-- The character of a decimal digit `d < 10`. -/
def digitChar (d : Nat) : Char := Char.ofNat (48 + d)

/-- Decimal digits of `n`, most significant first; `fuel` bounds recursion
depth (`natDigits` supplies enough). -/
def digitsAux (fuel n : Nat) : List Char :=
  match fuel with
  | 0 => []
  | fuel + 1 => if n < 10 then [digitChar n] else digitsAux fuel (n / 10) ++ [digitChar (n % 10)]

/-- Standard decimal rendering of a natural number. -/
def natDigits (n : Nat) : List Char := digitsAux (n + 1) n

/-- Numeric value of a list of decimal digit characters. -/
def digitsVal : List Char → Nat
  | [] => 0
  | c :: cs => (c.toNat - 48) * 10 ^ cs.length + digitsVal cs

/-! ### `SeriesDirectory` (`src/crawlers/_utils.py` lines 172-227)

`__init__` computes `self._width = int(math.log10(size)) + 2` (line 196);
`math.log10` raises `ValueError` on `size = 0`, and for `size ≥ 1` the value
is `⌊log₁₀ size⌋`, embedded as `Nat.log 10 size`.  `get` (lines 206-227)
builds `f"{index + 1}.{extension}"` and pads it with `str.zfill` to
`self._width + len(extension)` characters.
-/

/-- Embedding of `int(math.log10(size)) + 2` of `SeriesDirectory.__init__`: `none` models
the `ValueError` raised by `math.log10(0)`. -/
def seriesIndexWidth (size : Nat) : Option Nat :=
  if size = 0 then none else some (Nat.log 10 size + 2)

/-- Python `str.zfill(w)`: left-pad with `'0'` to `w` characters, keeping a
leading sign in front of the padding. -/
def zfill (s : List Char) (w : Nat) : List Char :=
  match s with
  | c :: rest =>
    if c = '+' ∨ c = '-' then c :: (List.replicate (w - s.length) '0' ++ rest)
    else List.replicate (w - s.length) '0' ++ s
  | [] => List.replicate w '0'

/-- Embedding of the `SeriesDirectory.get` filename construction (lines 223-225) given the
already-computed `_width`. -/
def seriesGet (width : Nat) (ext : List Char) (index : Nat) : List Char :=
  zfill (natDigits (index + 1) ++ '.' :: ext) (width + ext.length)

/-- The filename `SeriesDirectory` produces for instance `index` of a series
with `size` declared instances (composition of `__init__` and `get`). -/
def seriesFileName (size : Nat) (ext : List Char) (index : Nat) : List Char :=
  seriesGet (Nat.log 10 size + 2) ext index

/-- Strict lexicographic comparison of character lists, as Python compares
strings (and as file listings sort names). -/
def lexLt : List Char → List Char → Bool
  | [], [] => false
  | [], _ :: _ => true
  | _ :: _, [] => false
  | a :: as, b :: bs => a < b || (a = b && lexLt as bs)

/-! ### `make_unique_dir` (`src/crawlers/_utils.py` lines 143-169)

The file system is embedded as a state of directory names, file names and
names whose creation is denied (all within the one parent directory the
function works in, so paths are bare names).  `path.mkdir(parents=True,
exist_ok=False)` raises `FileExistsError` when the entry exists, and some
other `OSError` (modelled as `permission`) when creation is denied;
`path.is_dir()` is membership among directories.
-/

/-- File-system state within one parent directory. -/
structure FsState where
  dirs : List (List Char)
  files : List (List Char)
  denied : List (List Char)
deriving DecidableEq

/-- Errors raised by `Path.mkdir`. -/
inductive OSErr where
  | fileExists
  | permission
deriving DecidableEq

/-- Embedding of `path.mkdir(parents=True, exist_ok=False)`. -/
def fsMkdir (fs : FsState) (p : List Char) : Except OSErr FsState :=
  if fs.dirs.contains p || fs.files.contains p then .error .fileExists
  else if fs.denied.contains p then .error .permission
  else .ok { fs with dirs := p :: fs.dirs }

/-- One candidate split of `_filename_serial_re = r"^(.+?) \((\d+)\)$"` at
stem length `i`: the stem `p.take i`, then a space, an opening parenthesis,
one or more digits and a closing parenthesis ending the name. -/
def serialAt (p : List Char) (i : Nat) : Option (List Char × Nat) :=
  match p.drop i with
  | a :: b :: tail =>
    if a = ' ' ∧ b = '(' ∧ tail.getLast? = some ')' ∧ tail.dropLast ≠ [] ∧
        tail.dropLast.all Char.isDigit then
      some (p.take i, digitsVal tail.dropLast)
    else none
  | _ => none

/-- Embedding of `_filename_serial_re.match(name)`: the lazy `(.+?)` yields the shortest
nonempty stem whose remainder matches `" (<digits>)"`. -/
def serialMatch (p : List Char) : Option (List Char × Nat) :=
  (List.range p.length).findSome? (fun k => serialAt p (k + 1))

/-- The alternative name `make_unique_dir` retries with (lines 161-166):
increment an existing ` (n)` suffix, or append ` (1)`. -/
def nextAltName (p : List Char) : List Char :=
  match serialMatch p with
  | some (stem, n) => stem ++ ' ' :: '(' :: (natDigits (n + 1) ++ [')'])
  | none => p ++ ' ' :: '(' :: (natDigits 1 ++ [')'])

/-- Embedding of `make_unique_dir` (lines 146-169).  `fuel` bounds the recursion depth
(the source recurses until `mkdir` succeeds); `none` means fuel ran out and
is never the result for sufficient fuel. -/
def makeUniqueDir (fs : FsState) (p : List Char) : Nat → Option (Except OSErr (List Char × FsState))
  | 0 => none
  | fuel + 1 =>
    match fsMkdir fs p with
    | .ok fs' => some (.ok (p, fs'))
    | .error e =>
      if fs.dirs.contains p then makeUniqueDir fs (nextAltName p) fuel
      else some (.error e)

/-- The canonical name of the `k`-th directory created from suggestion `"X"`:
`"X"` itself, then `"X (k)"`. -/
def xName (k : Nat) : List Char :=
  match k with
  | 0 => ['X']
  | k + 1 => 'X' :: ' ' :: '(' :: (natDigits (k + 1) ++ [')'])

/-- The file-system state holding directories `X, X (1), ..., X (n)` created
from `n + 1` requests for the same suggested name. -/
def xScenario (n : Nat) : FsState :=
  { dirs := (List.range (n + 1)).map xName, files := [], denied := [] }

/-! ### Value representations and `parse_dcm_value`
(`src/crawlers/_utils.py` lines 230-250)

`parse_dcm_value` dispatches on pydicom's VR families: `VR.AT` first (a tag
reference, parsed by `pydicom.tag.Tag`, which reads one string argument as a
hexadecimal literal), then membership in pydicom's `STR_VR`, then `INT_VR`
or the pseudo-VR string `"US or SS"` used by dictionary entries with
ambiguous representation, then `FLOAT_VR`; any other VR raises
`NotImplementedError("Unsupported VR: ...")`.  The family sets are pydicom's
(`pydicom.valuerep`): the numeric-string VRs DS and IS belong to `STR_VR` as
well as to the numeric sets and are captured by the string branch, which is
checked first.
-/

inductive VRCode where
  | AE | AS | AT | CS | DA | DS | DT | FL | FD | IS | LO | LT | OB | OD | OF
  | OL | OV | OW | PN | SH | SL | SQ | SS | ST | SV | TM | UC | UI | UL | UN
  | UR | US | UT | UV
  | USorSS
  | OBorOW
  | USorSSorOW
deriving DecidableEq

/-- pydicom `STR_VR`: the VRs whose values are strings. -/
def STR_VR : List VRCode := [.AE, .AS, .CS, .DA, .DS, .DT, .IS, .LO, .LT, .PN,
  .SH, .ST, .TM, .UC, .UI, .UR, .UT]

/-- pydicom `INT_VR`: the VRs whose values may be ints. -/
def INT_VR : List VRCode := [.AT, .IS, .SL, .SS, .SV, .UL, .US, .UV]

/-- pydicom `FLOAT_VR`: the VRs whose values may be floats. -/
def FLOAT_VR : List VRCode := [.DS, .FD, .FL]

/-- The VRs that reach the integer branch of `parse_dcm_value`: `INT_VR`
less `AT` (handled by the earlier tag branch) and `IS` (captured by the
string branch, which is checked first), plus the `"US or SS"` pseudo-VR —
the integer family of the specification. -/
def intBranchVRs : List VRCode := [.SL, .SS, .SV, .UL, .US, .UV, .USorSS]

/-- Python `int(s)`: optional surrounding whitespace, an optional sign and
one or more decimal digits (digit-group underscores are not modelled; no
input here contains them); anything else raises `ValueError` (`none`). -/
def pyInt (s : List Char) : Option Int :=
  let t := pyStrip s
  match t with
  | '+' :: ds =>
    if ds ≠ [] ∧ ds.all Char.isDigit then some (Int.ofNat (digitsVal ds)) else none
  | '-' :: ds =>
    if ds ≠ [] ∧ ds.all Char.isDigit then some (-(Int.ofNat (digitsVal ds))) else none
  | ds =>
    if ds ≠ [] ∧ ds.all Char.isDigit then some (Int.ofNat (digitsVal ds)) else none

/-- Whether Python `float(s)` accepts `s`, modelled for the plain decimal
forms tag values take (optional sign, digits with at most one point; the
exotic forms `inf`/`nan`/exponents are not modelled — no claim depends on
the float branch's boundary).  The parsed float itself is kept as text. -/
def pyFloatOk (s : List Char) : Bool :=
  let t := pyStrip s
  let t2 := match t with
    | c :: r => if c = '+' ∨ c = '-' then r else t
    | [] => []
  match t2.splitOn '.' with
  | [a] => !a.isEmpty && a.all Char.isDigit
  | [a, b] => (!a.isEmpty || !b.isEmpty) && a.all Char.isDigit && b.all Char.isDigit
  | _ => false

/-- Value of one hexadecimal digit character. -/
def hexCharVal (c : Char) : Option Nat :=
  if c.isDigit then some (c.toNat - 48)
  else if 'a' ≤ c ∧ c ≤ 'f' then some (c.toNat - 87)
  else if 'A' ≤ c ∧ c ≤ 'F' then some (c.toNat - 55)
  else none

def hexValAux (acc : Nat) : List Char → Option Nat
  | [] => some acc
  | c :: cs =>
    match hexCharVal c with
    | some d => hexValAux (acc * 16 + d) cs
    | none => none

/-- Python `int(s, 16)` as used by `pydicom.tag.Tag` on a string argument:
optional whitespace, optional `0x` prefix, one or more hex digits (signs not
modelled — a signed tag literal does not occur). -/
def pyIntBase16 (s : List Char) : Option Nat :=
  let t := pyStrip s
  let t2 := match t with
    | a :: b :: r => if a = '0' ∧ (b = 'x' ∨ b = 'X') then r else t
    | _ => t
  if t2 = [] then none else hexValAux 0 t2

/-- A data-element tag `(group, element)`. -/
structure DcmTag where
  group : Nat
  elem : Nat
deriving DecidableEq

/-- Embedding of `pydicom.tag.Tag(value)` for a single string `value`: the hexadecimal
literal split into high and low 16 bits; values above `0xFFFFFFFF` raise
`OverflowError`. -/
def pyTag (s : List Char) : Option DcmTag :=
  match pyIntBase16 s with
  | some v => if v ≤ 4294967295 then some ⟨v / 65536, v % 65536⟩ else none
  | none => none

/-- Errors `parse_dcm_value` can raise. -/
inductive PdvErr where
  | unsupportedVR (vr : VRCode)
  | badNum
  | badTag
deriving DecidableEq

/-- Values `parse_dcm_value` can return: a scalar or vector per family (the
float carrier keeps the raw text, see `pyFloatOk`). -/
inductive PdvValue where
  | str (s : List Char)
  | strs (vs : List (List Char))
  | int (v : Int)
  | ints (vs : List Int)
  | flt (raw : List Char)
  | flts (raws : List (List Char))
  | tag (t : DcmTag)
deriving DecidableEq

deriving instance DecidableEq for Except

/-- Embedding of `value.split("\\")`. -/
def splitBS (s : List Char) : List (List Char) := s.splitOn '\\'

/-- Embedding of `parse_dcm_value` (`src/crawlers/_utils.py` lines 230-250). -/
def parse_dcm_value (value : List Char) (vr : VRCode) : Except PdvErr PdvValue :=
  if vr = .AT then
    match pyTag value with
    | some t => .ok (.tag t)
    | none => .error .badTag
  else if STR_VR.contains vr then
    match splitBS value with
    | [_] => .ok (.str value)
    | parts => .ok (.strs parts)
  else if INT_VR.contains vr || vr = .USorSS then
    match splitBS value with
    | [_] =>
      match pyInt value with
      | some v => .ok (.int v)
      | none => .error .badNum
    | parts =>
      match parts.mapM pyInt with
      | some vs => .ok (.ints vs)
      | none => .error .badNum
  else if FLOAT_VR.contains vr then
    match splitBS value with
    | [_] => if pyFloatOk value then .ok (.flt value) else .error .badNum
    | parts => if parts.all pyFloatOk then .ok (.flts parts) else .error .badNum
  else .error (.unsupportedVR vr)

/-! ### The `_write_dicom` assemblers
(`src/crawlers/hinacom.py` lines 168-202, `src/crawlers/tdcloud.py` lines
395-430, `src/crawlers/xa_data.py` lines 452-610)

An input record is a tag (already parsed from its `"GGGG,EEEE"` hexadecimal
form, which `Tag(item["tag"].split(",", 2))` decodes injectively) and a raw
string value.  A pydicom `Dataset` is embedded as an association list from
tags to element values; `setattr` through a dictionary keyword stores under
that keyword's tag, which for the public dictionary is the tag that was
looked up, so the embedding stores by tag and drops the redundant keyword.
The public dictionary itself (`pydicom.datadict.DicomDictionary`) is outside
this repository and is a parameter `dict` mapping a tag to its declared VR
(`definition[0]`).
-/

/-- One element of the crawler's tag list. -/
structure TagItem where
  tag : DcmTag
  value : List Char
deriving DecidableEq

/-- A stored element value: coerced through `parse_dcm_value`, or kept
verbatim as an `LO` element by `ds.add_new(tag, "LO", value)`. -/
inductive DsVal where
  | parsed (v : PdvValue)
  | lo (raw : List Char)
deriving DecidableEq

/-- Tag-keyed lookup in an embedded dataset (first match wins; updates
prepend). -/
def dsGet (d : List (DcmTag × DsVal)) (t : DcmTag) : Option DsVal :=
  match d with
  | [] => none
  | (k, v) :: rest => if k = t then some v else dsGet rest t

/-- The dataset / file-meta pair a `_write_dicom` run builds. -/
structure DicomState where
  ds : List (DcmTag × DsVal)
  meta : List (DcmTag × DsVal)
deriving DecidableEq

/-- Errors a `_write_dicom` tag loop or identifier step can raise. -/
inductive AsmErr where
  | typeErrNone (t : DcmTag)
  | parse (e : PdvErr)
  | missingAttr (t : DcmTag)
deriving DecidableEq

/-- One iteration of the hinacom tag loop (hinacom.py lines 173-188): a
group-2 tag is sent to the file meta using `definition[0]` without a `None`
check (a `TypeError` when the tag is unknown); a known tag is coerced and
stored in the dataset; an unknown tag is stored verbatim as `LO`. -/
def hinacomStep (dict : DcmTag → Option VRCode) (st : DicomState) (it : TagItem) :
    Except AsmErr DicomState :=
  if it.tag.group = 2 then
    match dict it.tag with
    | none => .error (.typeErrNone it.tag)
    | some vr =>
      match parse_dcm_value it.value vr with
      | .ok v => .ok { st with meta := (it.tag, .parsed v) :: st.meta }
      | .error e => .error (.parse e)
  else
    match dict it.tag with
    | some vr =>
      match parse_dcm_value it.value vr with
      | .ok v => .ok { st with ds := (it.tag, .parsed v) :: st.ds }
      | .error e => .error (.parse e)
    | none => .ok { st with ds := (it.tag, .lo it.value) :: st.ds }

/-- One iteration of the tdcloud tag loop (tdcloud.py lines 400-416): as
hinacom, but a group-2 tag is guarded by `if definition:` — an unknown
group-2 tag is silently dropped. -/
def tdcloudStep (dict : DcmTag → Option VRCode) (st : DicomState) (it : TagItem) :
    Except AsmErr DicomState :=
  if it.tag.group = 2 then
    match dict it.tag with
    | none => .ok st
    | some vr =>
      match parse_dcm_value it.value vr with
      | .ok v => .ok { st with meta := (it.tag, .parsed v) :: st.meta }
      | .error e => .error (.parse e)
  else
    match dict it.tag with
    | some vr =>
      match parse_dcm_value it.value vr with
      | .ok v => .ok { st with ds := (it.tag, .parsed v) :: st.ds }
      | .error e => .error (.parse e)
    | none => .ok { st with ds := (it.tag, .lo it.value) :: st.ds }

/-- One iteration of the xa_data tag loop (xa_data.py lines 464-479): the
tdcloud routing inside `try: ... except Exception: pass` — an exception
skips the item, leaving the state unchanged. -/
def xaStep (dict : DcmTag → Option VRCode) (st : DicomState) (it : TagItem) : DicomState :=
  match tdcloudStep dict st it with
  | .ok s => s
  | .error _ => st

def hinacomLoopFrom (dict : DcmTag → Option VRCode) (st0 : DicomState)
    (items : List TagItem) : Except AsmErr DicomState :=
  items.foldlM (hinacomStep dict) st0

def hinacomLoop (dict : DcmTag → Option VRCode) (items : List TagItem) :
    Except AsmErr DicomState :=
  hinacomLoopFrom dict ⟨[], []⟩ items

def tdcloudLoopFrom (dict : DcmTag → Option VRCode) (st0 : DicomState)
    (items : List TagItem) : Except AsmErr DicomState :=
  items.foldlM (tdcloudStep dict) st0

def tdcloudLoop (dict : DcmTag → Option VRCode) (items : List TagItem) :
    Except AsmErr DicomState :=
  tdcloudLoopFrom dict ⟨[], []⟩ items

def specificCharsetTag : DcmTag := ⟨8, 5⟩

/-- The xa_data loop (patient_info is `None`): the dataset starts with
`ds.SpecificCharacterSet = 'ISO_IR 192'` (line 462). -/
def xaLoop (dict : DcmTag → Option VRCode) (items : List TagItem) : DicomState :=
  items.foldl (xaStep dict) ⟨[(specificCharsetTag, .parsed (.str (chars (r"ISO_IR 192"))))], []⟩

def sopClassTag : DcmTag := ⟨8, 22⟩
def sopInstanceTag : DcmTag := ⟨8, 24⟩
def msSopClassTag : DcmTag := ⟨2, 2⟩
def msSopInstanceTag : DcmTag := ⟨2, 3⟩
def implClassTag : DcmTag := ⟨2, 18⟩
def implVersionTag : DcmTag := ⟨2, 19⟩

/-- hinacom.py lines 190-191: mirror the dataset identifiers into the meta
header; reading a missing attribute raises `AttributeError`. -/
def hinacomAssembleIds (dict : DcmTag → Option VRCode) (items : List TagItem) :
    Except AsmErr DicomState :=
  match hinacomLoop dict items with
  | .error e => .error e
  | .ok st =>
    match dsGet st.ds sopClassTag with
    | none => .error (.missingAttr sopClassTag)
    | some c =>
      match dsGet st.ds sopInstanceTag with
      | none => .error (.missingAttr sopInstanceTag)
      | some i =>
        .ok { st with meta := (msSopInstanceTag, i) :: (msSopClassTag, c) :: st.meta }

def xaDefaultSOPClass : List Char := chars (r"1.2.840.10008.5.1.4.1.1.2")
def xaImplClassUID : List Char := chars (r"1.2.826.0.1.3680043.8.498")
def xaImplVersion : List Char := chars (r"XA-DATA-PY")

/-- xa_data.py lines 490-502: implementation identifiers, then the default
SOP class `1.2.840.10008.5.1.4.1.1.2` when the dataset has none, then the
mirror into meta; a missing SOP instance identifier receives `generate_uid()`
(the parameter `newUID`), mirrored into both dataset and meta. -/
def xaAssembleIds (dict : DcmTag → Option VRCode) (items : List TagItem)
    (newUID : List Char) : DicomState :=
  let st0 := xaLoop dict items
  let st1 : DicomState := { st0 with
    meta := (implVersionTag, .parsed (.str xaImplVersion)) ::
      (implClassTag, .parsed (.str xaImplClassUID)) :: st0.meta }
  let st2 : DicomState :=
    match dsGet st1.ds sopClassTag with
    | none => { st1 with ds := (sopClassTag, .parsed (.str xaDefaultSOPClass)) :: st1.ds }
    | some _ => st1
  let st3 : DicomState :=
    match dsGet st2.ds sopClassTag with
    | some c => { st2 with meta := (msSopClassTag, c) :: st2.meta }
    | none => st2
  match dsGet st3.ds sopInstanceTag with
  | some i => { st3 with meta := (msSopInstanceTag, i) :: st3.meta }
  | none =>
    { st3 with ds := (sopInstanceTag, .parsed (.str newUID)) :: st3.ds,
               meta := (msSopInstanceTag, .parsed (.str newUID)) :: st3.meta }

/-! ### Pixel-byte classification
(hinacom.py lines 193-200, xa_data.py lines 504-602)

Byte strings are `List Nat`; out-of-range Python indexing inside the JPEG
header scan (an uncaught `IndexError` on truncated input) is modelled by
`getD _ 0` — no claim concerns truncated JPEG payloads.
-/

/-- The bytes `b"ftypjp2"`. -/
def ftypjp2sig : List Nat := [102, 116, 121, 112, 106, 112, 50]

/-- The bytes `b"ftyp"`. -/
def ftypSig : List Nat := [102, 116, 121, 112]

/-- Python bytes containment `pat in l`: `pat` occurs as a contiguous
subsequence of `l`. -/
def containsSeq (pat : List Nat) : List Nat → Bool
  | [] => pat.isEmpty
  | x :: xs => pat.isPrefixOf (x :: xs) || containsSeq pat xs

/-- hinacom.py line 194: `(ds.BitsAllocated + 7) // 8 * ds.Rows * ds.Columns`. -/
def pxSize (bits rows cols : Nat) : Nat := (bits + 7) / 8 * rows * cols

/-- The two transfer syntaxes hinacom's `_write_dicom` can choose. -/
inductive HinaTS where
  | jpeg2000Lossless
  | explicitVRLittleEndian
deriving DecidableEq

/-- hinacom.py lines 195-200: encapsulated JPEG 2000 exactly when
`image[16:23] == b"ftypjp2"` and the length differs from the computed
uncompressed size; raw `ExplicitVRLittleEndian` otherwise. -/
def hinacomPixel (bits rows cols : Nat) (image : List Nat) : HinaTS :=
  if (image.drop 16).take 7 = ftypjp2sig ∧ image.length ≠ pxSize bits rows cols then
    .jpeg2000Lossless
  else .explicitVRLittleEndian

structure JpegInfo where
  height : Nat
  width : Nat
  channels : Nat
  precision : Nat
deriving DecidableEq

/-- Big-endian 16-bit value (`struct.unpack(">H", ...)`). -/
def beU16 (b0 b1 : Nat) : Nat := b0 * 256 + b1

/-- The marker-scan loop of `parse_jpeg_header` (xa_data.py lines 416-449),
fuelled: each iteration advances past a non-marker byte, returns the SOF0
frame fields, stops at start-of-scan, or skips a segment. -/
def jpegScan (data : List Nat) : Nat → Nat → Option JpegInfo
  | 0, _ => none
  | fuel + 1, index =>
    if index < data.length then
      if data.getD index 0 ≠ 255 then jpegScan data fuel (index + 1)
      else
        let marker := data.getD (index + 1) 0
        let i2 := index + 2
        if marker = 192 then
          if i2 + 8 > data.length then none
          else some { precision := data.getD (i2 + 2) 0,
                      height := beU16 (data.getD (i2 + 3) 0) (data.getD (i2 + 4) 0),
                      width := beU16 (data.getD (i2 + 5) 0) (data.getD (i2 + 6) 0),
                      channels := data.getD (i2 + 7) 0 }
        else if i2 + 2 > data.length then none
        else
          let segLen := beU16 (data.getD i2 0) (data.getD (i2 + 1) 0)
          if marker = 218 then none
          else jpegScan data fuel (i2 + segLen)
    else none

/-- Embedding of `parse_jpeg_header` (xa_data.py lines 409-449): `None` unless the bytes
begin with the JPEG start marker `FF D8`. -/
def parse_jpeg_header (data : List Nat) : Option JpegInfo :=
  if data.length < 2 ∨ data.take 2 ≠ [255, 216] then none
  else jpegScan data (2 * data.length + 2) 2

/-- The classification xa_data's `_write_dicom` makes of the pixel bytes
(lines 535, 565, 573): JPEG baseline when the frame header parses, else raw
JPEG 2000 when the bytes start with `FF 4F` or contain `ftyp` in the first
64 bytes, else the ZIP-extraction / uncompressed fallback chain (lines
574-602, not needed by any claim). -/
inductive XaPixelClass where
  | jpegBaseline (info : JpegInfo)
  | jpeg2000Raw
  | zipOrOther
deriving DecidableEq

def xaPixelClass (image : List Nat) : XaPixelClass :=
  match parse_jpeg_header image with
  | some info => .jpegBaseline info
  | none =>
    if image.take 2 = [255, 79] ∨ containsSeq ftypSig (image.take 64) then .jpeg2000Raw
    else .zipOrOther

/-- A sample of the public dictionary, for concrete instances: transfer
syntax and media-storage identifiers (group 2), SOP identifiers, character
set, image geometry and patient name.  `(2, 0x99)` and the private tags used
in counterexamples are absent from the public dictionary. -/
def sampleDict (t : DcmTag) : Option VRCode :=
  if t = ⟨2, 16⟩ then some .UI
  else if t = msSopClassTag then some .UI
  else if t = msSopInstanceTag then some .UI
  else if t = sopClassTag then some .UI
  else if t = sopInstanceTag then some .UI
  else if t = specificCharsetTag then some .CS
  else if t = ⟨40, 16⟩ then some .US
  else if t = ⟨40, 17⟩ then some .US
  else if t = ⟨40, 256⟩ then some .US
  else if t = ⟨16, 16⟩ then some .PN
  else none

/-- The result is the fatal `NotImplementedError("Unsupported VR: ...")`. -/
def isUnsupportedResult : Except PdvErr PdvValue → Bool
  | .error (.unsupportedVR _) => true
  | _ => false

/-- The four supported families: the tag-reference VR, the string family,
the integer family with the "US or SS" pseudo-VR, and the float family. -/
def supportedVRs : List VRCode := .AT :: STR_VR ++ INT_VR ++ [.USorSS] ++ FLOAT_VR

-- THEOREMS BELOW


theorem subIllegalChar_not_illegal (c : Char) :
    illegalPathChars.contains (subIllegalChar c) = false := by
  by_cases h : illegalPathChars.contains c = true
  · have hm : c ∈ illegalPathChars := List.mem_of_elem_eq_true h
    simp only [illegalPathChars, List.mem_cons, List.not_mem_nil, or_false] at hm
    rcases hm with h1 | h1 | h1 | h1 | h1 | h1 | h1 | h1 | h1 <;> subst h1 <;> decide
  · simp only [subIllegalChar, h, if_false, Bool.if_false_right]
    simp only [Bool.not_eq_true] at h
    exact h

theorem subIllegalChar_idem (c : Char) :
    subIllegalChar (subIllegalChar c) = subIllegalChar c := by
  have h := subIllegalChar_not_illegal c
  rw [subIllegalChar, h]
  simp

theorem subIllegalChar_space (c : Char) :
    isPySpace (subIllegalChar c) = isPySpace c := by
  by_cases h : illegalPathChars.contains c = true
  · have hm : c ∈ illegalPathChars := List.mem_of_elem_eq_true h
    have hs : subIllegalChar c = toFullWidth c := by
      simp only [subIllegalChar, h, if_true]
    rw [hs]
    simp only [illegalPathChars, List.mem_cons, List.not_mem_nil, or_false] at hm
    rcases hm with h1 | h1 | h1 | h1 | h1 | h1 | h1 | h1 | h1 <;> subst h1 <;> decide
  · have hnm : c ∉ illegalPathChars := fun hm => h (List.elem_eq_true_of_mem hm)
    simp [subIllegalChar, hnm]

theorem dropWhile_map_comm (f : Char → Char) (p : Char → Bool)
    (hf : ∀ c, p (f c) = p c) (l : List Char) :
    (l.map f).dropWhile p = (l.dropWhile p).map f := by
  induction l with
  | nil => rfl
  | cons a l ih =>
    simp only [List.map_cons, List.dropWhile_cons, hf a]
    by_cases h : p a = true
    · simp [h, ih]
    · simp [h]

theorem pyStrip_map_comm (f : Char → Char) (hf : ∀ c, isPySpace (f c) = isPySpace c)
    (l : List Char) : pyStrip (l.map f) = (pyStrip l).map f := by
  unfold pyStrip
  rw [dropWhile_map_comm f isPySpace hf l, ← List.map_reverse,
    dropWhile_map_comm f isPySpace hf, List.map_reverse]

theorem dropWhile_idem (p : Char → Bool) (l : List Char) :
    (l.dropWhile p).dropWhile p = l.dropWhile p := by
  induction l with
  | nil => rfl
  | cons a l ih =>
    by_cases h : p a = true
    · simp [List.dropWhile_cons, h, ih]
    · simp [List.dropWhile_cons, h]

theorem dropWhile_append_last (p : Char → Bool) (ys : List Char) (a : Char) :
    (ys ++ [a]).dropWhile p = [] ∨ ((ys ++ [a]).dropWhile p).getLast? = some a := by
  induction ys with
  | nil =>
    by_cases h : p a = true
    · left; simp [List.dropWhile_cons, h]
    · right; simp [List.dropWhile_cons, h]
  | cons y ys ih =>
    by_cases h : p y = true
    · simpa [List.dropWhile_cons, h] using ih
    · right
      have h0 : p y = false := by
        cases hc : p y
        · rfl
        · exact absurd hc h
      simp only [List.cons_append, List.dropWhile_cons, h0, Bool.false_eq_true, if_false]
      rw [← List.cons_append, List.getLast?_concat]

theorem dropWhile_length_le (p : Char → Bool) (l : List Char) :
    (l.dropWhile p).length ≤ l.length := by
  induction l with
  | nil => simp
  | cons a t ih =>
    by_cases h : p a = true
    · simp only [List.dropWhile_cons, h, if_true]
      exact Nat.le_succ_of_le ih
    · simp [List.dropWhile_cons, h]

theorem dropWhile_not_head (p : Char → Bool) (m : List Char) (a : Char)
    (hh : m.head? = some a) (ha : p a = false) : m.dropWhile p = m := by
  cases m with
  | nil => rfl
  | cons c t =>
    simp only [List.head?_cons, Option.some_inj] at hh
    subst hh
    simp [List.dropWhile_cons, ha]

theorem dropWhile_head_not (p : Char → Bool) (m : List Char) :
    (m.dropWhile p).dropWhile p = m.dropWhile p := dropWhile_idem p m

/-- The right-strip of a left-stripped list is still left-stripped. -/
theorem lstrip_rstrip (p : Char → Bool) (m : List Char) (hm : m.dropWhile p = m) :
    ((m.reverse.dropWhile p).reverse).dropWhile p = (m.reverse.dropWhile p).reverse := by
  cases m with
  | nil => rfl
  | cons a t =>
    have ha : p a = false := by
      by_contra hpa
      have hpa' : p a = true := by
        cases h' : p a
        · exact absurd h' hpa
        · rfl
      simp only [List.dropWhile_cons, hpa', if_true] at hm
      have hle := dropWhile_length_le p t
      rw [hm] at hle
      simp at hle
    have hrev : (a :: t).reverse = t.reverse ++ [a] := by simp
    rw [hrev]
    rcases dropWhile_append_last p t.reverse a with h | h
    · simp [h]
    · apply dropWhile_not_head p _ a
      · rw [List.head?_reverse]
        exact h
      · exact ha

theorem pyStrip_idem (l : List Char) : pyStrip (pyStrip l) = pyStrip l := by
  unfold pyStrip
  set A := l.dropWhile isPySpace with hA
  have h1 : ((A.reverse.dropWhile isPySpace).reverse).dropWhile isPySpace
      = (A.reverse.dropWhile isPySpace).reverse :=
    lstrip_rstrip isPySpace A (dropWhile_idem isPySpace l)
  rw [h1, List.reverse_reverse, dropWhile_idem]

/-- Claim C10: path sanitization is idempotent: re-sanitizing an already
sanitized name changes nothing. -/
theorem pathify_idempotent (s : List Char) : pathify (pathify s) = pathify s := by
  simp only [pathify, subIllegal]
  rw [pyStrip_map_comm subIllegalChar subIllegalChar_space, pyStrip_idem, List.map_map]
  exact List.map_congr_left (fun a _ => subIllegalChar_idem a)

theorem digitsAux_stable (f1 : Nat) : ∀ f2 n, n < f1 → n < f2 → digitsAux f1 n = digitsAux f2 n := by
  induction f1 with
  | zero => intro f2 n h1 _; omega
  | succ a ih =>
    intro f2 n h1 h2
    match f2, h2 with
    | b + 1, _ =>
      show digitsAux (a + 1) n = digitsAux (b + 1) n
      by_cases hn : n < 10
      · simp [digitsAux, hn]
      · have hdiv : n / 10 < n := Nat.div_lt_self (by omega) (by omega)
        simp only [digitsAux, hn, if_false]
        rw [ih b (n / 10) (by omega) (by omega)]

theorem natDigits_small {n : Nat} (h : n < 10) : natDigits n = [digitChar n] := by
  simp [natDigits, digitsAux, h]

theorem natDigits_step {n : Nat} (h : 10 ≤ n) :
    natDigits n = natDigits (n / 10) ++ [digitChar (n % 10)] := by
  have hn : ¬n < 10 := by omega
  show digitsAux (n + 1) n = _
  simp only [digitsAux, hn, if_false]
  rw [natDigits, digitsAux_stable n (n / 10 + 1) (n / 10)
    (Nat.div_lt_self (by omega) (by omega)) (by omega)]

theorem digitChar_toNat {d : Nat} (h : d < 10) : (digitChar d).toNat = 48 + d := by
  interval_cases d <;> decide

theorem digitChar_isDigit {d : Nat} (h : d < 10) : (digitChar d).isDigit = true := by
  interval_cases d <;> decide

theorem digitChar_lt {a b : Nat} (ha : a < 10) (hb : b < 10) :
    digitChar a < digitChar b ↔ a < b := by
  interval_cases a <;> interval_cases b <;> decide

theorem digitChar_not_sign {d : Nat} (h : d < 10) :
    ¬(digitChar d = '+' ∨ digitChar d = '-') := by
  interval_cases d <;> decide

theorem natDigits_all_digit (n : Nat) : ∀ c ∈ natDigits n, c.isDigit = true := by
  induction n using Nat.strong_induction_on with
  | _ n ih =>
    by_cases h : n < 10
    · rw [natDigits_small h]
      intro c hc
      simp only [List.mem_singleton] at hc
      subst hc
      exact digitChar_isDigit h
    · rw [natDigits_step (by omega)]
      intro c hc
      rcases List.mem_append.mp hc with hc | hc
      · exact ih (n / 10) (Nat.div_lt_self (by omega) (by omega)) c hc
      · simp only [List.mem_singleton] at hc
        subst hc
        exact digitChar_isDigit (Nat.mod_lt _ (by omega))

theorem digitsVal_append_single (l : List Char) (c : Char) :
    digitsVal (l ++ [c]) = 10 * digitsVal l + (c.toNat - 48) := by
  induction l with
  | nil => simp [digitsVal]
  | cons a as ih =>
    show digitsVal (a :: (as ++ [c])) = _
    simp only [digitsVal, ih, List.length_append, List.length_singleton]
    ring

theorem digitsVal_natDigits (n : Nat) : digitsVal (natDigits n) = n := by
  induction n using Nat.strong_induction_on with
  | _ n ih =>
    by_cases h : n < 10
    · rw [natDigits_small h]
      simp [digitsVal, digitChar_toNat h]
    · rw [natDigits_step (by omega), digitsVal_append_single,
        ih (n / 10) (Nat.div_lt_self (by omega) (by omega)),
        digitChar_toNat (Nat.mod_lt _ (by omega))]
      omega

theorem natDigits_inj {m n : Nat} (h : natDigits m = natDigits n) : m = n := by
  have := congrArg digitsVal h
  rwa [digitsVal_natDigits, digitsVal_natDigits] at this

theorem natDigits_length (n : Nat) : (natDigits n).length = Nat.log 10 n + 1 := by
  induction n using Nat.strong_induction_on with
  | _ n ih =>
    by_cases h : n < 10
    · rw [natDigits_small h]
      have hlog : Nat.log 10 n = 0 := Nat.log_eq_zero_iff.mpr (Or.inl h)
      simp [hlog]
    · rw [natDigits_step (by omega)]
      have h1 := ih (n / 10) (Nat.div_lt_self (by omega) (by omega))
      have h2 : Nat.log 10 (n / 10) = Nat.log 10 n - 1 := Nat.log_div_base 10 n
      have h3 : 0 < Nat.log 10 n := Nat.log_pos (by omega) (by omega)
      simp only [List.length_append, List.length_singleton, h1]
      omega

theorem natDigits_head (n : Nat) (h : 1 ≤ n) :
    ∃ d t, natDigits n = digitChar d :: t ∧ 1 ≤ d ∧ d < 10 := by
  induction n using Nat.strong_induction_on with
  | _ n ih =>
    by_cases h10 : n < 10
    · exact ⟨n, [], natDigits_small h10, h, h10⟩
    · obtain ⟨d, t, ht, hd1, hd2⟩ :=
        ih (n / 10) (Nat.div_lt_self (by omega) (by omega)) (by omega)
      exact ⟨d, t ++ [digitChar (n % 10)], by rw [natDigits_step (by omega), ht]; rfl, hd1, hd2⟩

theorem digitsVal_lt_pow (cs : List Char) (h : ∀ c ∈ cs, c.isDigit = true) :
    digitsVal cs < 10 ^ cs.length := by
  induction cs with
  | nil => simp [digitsVal]
  | cons c cs ih =>
    have hc : c.isDigit = true := h c (List.mem_cons_self c cs)
    have hcv : c.toNat - 48 ≤ 9 := by
      simp only [Char.isDigit, Bool.and_eq_true, decide_eq_true_eq] at hc
      have h3 : c.toNat ≤ 57 := hc.2
      omega
    have hrest := ih (fun x hx => h x (List.mem_cons_of_mem c hx))
    show (c.toNat - 48) * 10 ^ cs.length + digitsVal cs < 10 ^ (cs.length + 1)
    have : (c.toNat - 48) * 10 ^ cs.length ≤ 9 * 10 ^ cs.length :=
      Nat.mul_le_mul_right _ hcv
    calc (c.toNat - 48) * 10 ^ cs.length + digitsVal cs
        < (c.toNat - 48) * 10 ^ cs.length + 10 ^ cs.length := by omega
      _ ≤ 9 * 10 ^ cs.length + 10 ^ cs.length := by omega
      _ = 10 ^ (cs.length + 1) := by ring

theorem lexLt_append_same (c : List Char) (u v : List Char) :
    lexLt (c ++ u) (c ++ v) = lexLt u v := by
  induction c with
  | nil => rfl
  | cons a c ih => simp [lexLt, ih, lt_irrefl]

theorem lexLt_cons_lt {a b : Char} (h : a < b) (u v : List Char) :
    lexLt (a :: u) (b :: v) = true := by
  simp [lexLt, h]

theorem lexLt_digits : ∀ da db : List Char, da.length = db.length →
    (∀ c ∈ da, c.isDigit = true) → (∀ c ∈ db, c.isDigit = true) →
    digitsVal da < digitsVal db → lexLt da db = true := by
  intro da
  induction da with
  | nil =>
    intro db hlen _ _ hv
    have : db = [] := List.length_eq_zero.mp hlen.symm
    subst this
    simp [digitsVal] at hv
  | cons a as ih =>
    intro db hlen hda hdb hv
    match db, hlen with
    | b :: bs, hlen =>
      have hlen' : as.length = bs.length := by simpa using hlen
      rcases lt_trichotomy a b with hab | hab | hab
      · exact lexLt_cons_lt hab _ _
      · subst hab
        have hvs : digitsVal as < digitsVal bs := by
          simp only [digitsVal, hlen'] at hv
          omega
        have := ih bs hlen' (fun c hc => hda c (List.mem_cons_of_mem a hc))
          (fun c hc => hdb c (List.mem_cons_of_mem a hc)) hvs
        simp [lexLt, this]
      · exfalso
        have hna : b.toNat < a.toNat := hab
        have hb48 : 48 ≤ b.toNat := by
          have hbd := hdb b (List.mem_cons_self b bs)
          simp only [Char.isDigit, Bool.and_eq_true, decide_eq_true_eq] at hbd
          exact hbd.1
        have hbound := digitsVal_lt_pow bs (fun c hc => hdb c (List.mem_cons_of_mem b hc))
        simp only [digitsVal, hlen'] at hv
        have hge : (b.toNat - 48 + 1) * 10 ^ bs.length ≤ (a.toNat - 48) * 10 ^ bs.length :=
          Nat.mul_le_mul_right _ (by omega)
        have hexp : (b.toNat - 48 + 1) * 10 ^ bs.length
            = (b.toNat - 48) * 10 ^ bs.length + 10 ^ bs.length := by ring
        omega

theorem lexLt_append_congr : ∀ da db s t : List Char, da.length = db.length →
    lexLt da db = true → lexLt (da ++ s) (db ++ t) = true := by
  intro da
  induction da with
  | nil =>
    intro db s t hlen h
    have : db = [] := List.length_eq_zero.mp hlen.symm
    subst this
    simp [lexLt] at h
  | cons a as ih =>
    intro db s t hlen h
    match db, hlen with
    | b :: bs, hlen =>
      have hlen' : as.length = bs.length := by simpa using hlen
      simp only [lexLt, Bool.or_eq_true, Bool.and_eq_true, decide_eq_true_eq] at h
      rcases h with h | ⟨h1, h2⟩
      · exact lexLt_cons_lt h _ _
      · subst h1
        have := ih bs s t hlen' h2
        simp [lexLt, this]

theorem zfill_no_sign (base : List Char) (w : Nat) (c : Char) (t : List Char)
    (hbase : base = c :: t) (hc : ¬(c = '+' ∨ c = '-')) :
    zfill base w = List.replicate (w - base.length) '0' ++ base := by
  subst hbase
  simp [zfill, hc]

theorem seriesFileName_eq_padded (size : Nat) (ext : List Char) (index : Nat) :
    ∃ d dt, natDigits (index + 1) = digitChar d :: dt ∧ 1 ≤ d ∧ d < 10 ∧
      seriesFileName size ext index =
        List.replicate ((Nat.log 10 size + 2 + ext.length)
            - (natDigits (index + 1) ++ '.' :: ext).length) '0'
          ++ (natDigits (index + 1) ++ '.' :: ext) := by
  obtain ⟨d, dt, hdt, hd1, hd2⟩ := natDigits_head (index + 1) (by omega)
  refine ⟨d, dt, hdt, hd1, hd2, ?_⟩
  show zfill (natDigits (index + 1) ++ '.' :: ext) (Nat.log 10 size + 2 + ext.length) = _
  exact zfill_no_sign _ _ (digitChar d) (dt ++ '.' :: ext) (by rw [hdt] ; rfl)
    (digitChar_not_sign hd2)

/-- Claim C8: for every series with declared instance count `n ≥ 1` and a
fixed extension, and all indices `i < j < n`, the zero-padded filename
produced for `i` sorts lexicographically strictly before the one for `j`:
lexicographic order of the generated names agrees with numeric order. -/
theorem seriesFileName_sorted (n : Nat) (ext : List Char) (i j : Nat)
    (_hn : 1 ≤ n) (hij : i < j) (hjn : j < n) :
    lexLt (seriesFileName n ext i) (seriesFileName n ext j) = true := by
  obtain ⟨d1, t1, hdt1, hd11, hd12, heq1⟩ := seriesFileName_eq_padded n ext i
  obtain ⟨d2, t2, hdt2, hd21, hd22, heq2⟩ := seriesFileName_eq_padded n ext j
  rw [heq1, heq2]
  have hlena : (natDigits (i + 1)).length = Nat.log 10 (i + 1) + 1 := natDigits_length _
  have hlenb : (natDigits (j + 1)).length = Nat.log 10 (j + 1) + 1 := natDigits_length _
  have hmono1 : Nat.log 10 (i + 1) ≤ Nat.log 10 (j + 1) := Nat.log_mono_right (by omega)
  have hmono2 : Nat.log 10 (j + 1) ≤ Nat.log 10 n := Nat.log_mono_right (by omega)
  have hLa : (natDigits (i + 1) ++ '.' :: ext).length
      = (natDigits (i + 1)).length + (1 + ext.length) := by
    simp [List.length_append]
    omega
  have hLb : (natDigits (j + 1) ++ '.' :: ext).length
      = (natDigits (j + 1)).length + (1 + ext.length) := by
    simp [List.length_append]
    omega
  by_cases hlen : (natDigits (i + 1)).length = (natDigits (j + 1)).length
  · have hpad : (Nat.log 10 n + 2 + ext.length) - (natDigits (i + 1) ++ '.' :: ext).length
        = (Nat.log 10 n + 2 + ext.length) - (natDigits (j + 1) ++ '.' :: ext).length := by
      omega
    rw [hpad, lexLt_append_same]
    apply lexLt_append_congr _ _ _ _ hlen
    apply lexLt_digits _ _ hlen (natDigits_all_digit _) (natDigits_all_digit _)
    rw [digitsVal_natDigits, digitsVal_natDigits]
    omega
  · have hlt : (natDigits (i + 1)).length < (natDigits (j + 1)).length := by omega
    set W := Nat.log 10 n + 2 + ext.length with hW
    set k := (natDigits (j + 1)).length - (natDigits (i + 1)).length with hk
    have hsplit : W - (natDigits (i + 1) ++ '.' :: ext).length
        = (W - (natDigits (j + 1) ++ '.' :: ext).length) + k := by
      omega
    rw [hsplit, List.replicate_add, List.append_assoc, lexLt_append_same]
    have hkpos : k = (k - 1) + 1 := by omega
    rw [hkpos, List.replicate_succ, hdt2]
    show lexLt ('0' :: _) (digitChar d2 :: (t2 ++ '.' :: ext)) = true
    apply lexLt_cons_lt
    have h0 : ('0' : Char) = digitChar 0 := by decide
    rw [h0]
    exact (digitChar_lt (by omega) hd22).mpr (by omega)

/-- Claim C4 counterexample: for a series of 5 instances and extension
`dcm`, index 0 yields `1.dcm` (the base name is already `index_width +
len(extension) = 5` characters long), not the `01.dcm` the claim states. -/
theorem seriesFileName_c4_cex :
    seriesFileName 5 (chars (r"dcm")) 0 = chars (r"1.dcm") ∧
    seriesFileName 5 (chars (r"dcm")) 0 ≠ chars (r"01.dcm") := by
  have hlog : Nat.log 10 5 = 0 := Nat.log_eq_zero_iff.mpr (Or.inl (by omega))
  unfold seriesFileName
  rw [hlog]
  exact ⟨by decide, by decide⟩

/-- Claim C4 (amended): `get` builds the base name `"{index+1}.{extension}"`
and zero-pads it on the left to `index_width + length(extension)` characters
total; for instance count 5 and extension `dcm` that total is 5, so index 0
yields `1.dcm` (no padding needed), not `01.dcm`. -/
theorem seriesGet_zero_padded (size : Nat) (ext : List Char) (index : Nat)
    (hidx : index < size) :
    seriesFileName size ext index =
      List.replicate ((Nat.log 10 size + 2 + ext.length)
          - (natDigits (index + 1) ++ '.' :: ext).length) '0'
        ++ (natDigits (index + 1) ++ '.' :: ext) ∧
    (seriesFileName size ext index).length = Nat.log 10 size + 2 + ext.length := by
  obtain ⟨d, dt, hdt, hd1, hd2, heq⟩ := seriesFileName_eq_padded size ext index
  refine ⟨heq, ?_⟩
  rw [heq]
  have hlen : (natDigits (index + 1)).length = Nat.log 10 (index + 1) + 1 :=
    natDigits_length _
  have hmono : Nat.log 10 (index + 1) ≤ Nat.log 10 size := Nat.log_mono_right (by omega)
  simp only [List.length_append, List.length_replicate, List.length_cons]
  omega

theorem seriesGet_zero_padded_witness :
    0 < 5 ∧
    seriesFileName 5 (chars (r"dcm")) 0 =
      List.replicate ((Nat.log 10 5 + 2 + (chars (r"dcm")).length)
          - (natDigits 1 ++ '.' :: chars (r"dcm")).length) '0'
        ++ (natDigits 1 ++ '.' :: chars (r"dcm")) ∧
    (seriesFileName 5 (chars (r"dcm")) 0).length = Nat.log 10 5 + 2 + (chars (r"dcm")).length :=
  ⟨by decide, (seriesGet_zero_padded 5 (chars (r"dcm")) 0 (by decide)).1,
    (seriesGet_zero_padded 5 (chars (r"dcm")) 0 (by decide)).2⟩

theorem seriesFileName_sorted_witness :
    1 ≤ 15 ∧ 1 < 11 ∧ 11 < 15 ∧
    lexLt (seriesFileName 15 (chars (r"dcm")) 1) (seriesFileName 15 (chars (r"dcm")) 11)
      = true :=
  ⟨by decide, by decide, by decide,
    seriesFileName_sorted 15 (chars (r"dcm")) 1 11 (by decide) (by decide) (by decide)⟩

/-- Claim C9 counterexample: a declared instance count of zero does not give
width 2 — `int(math.log10(size))` is evaluated without any `max(size, 1)`
guard, and `math.log10(0)` raises a domain error, so construction fails. -/
theorem seriesIndexWidth_zero_cex :
    seriesIndexWidth 0 = none ∧ seriesIndexWidth 0 ≠ some 2 :=
  ⟨rfl, by decide⟩

/-- Claim C9 (amended): for every declared instance count ≥ 1 construction
succeeds with `index_width = ⌊log₁₀ count⌋ + 2` (so count 1 yields width 2),
while count 0 raises a `ValueError` from `math.log10(0)`. -/
theorem seriesIndexWidth_pos (size : Nat) (h : 1 ≤ size) :
    seriesIndexWidth size = some (Nat.log 10 size + 2) ∧ seriesIndexWidth 1 = some 2 := by
  constructor
  · unfold seriesIndexWidth
    rw [if_neg (by omega)]
  · unfold seriesIndexWidth
    rw [if_neg (by omega)]
    have h1 : Nat.log 10 1 = 0 := Nat.log_eq_zero_iff.mpr (Or.inl (by omega))
    rw [h1]

theorem seriesIndexWidth_pos_witness :
    1 ≤ 5 ∧ seriesIndexWidth 5 = some (Nat.log 10 5 + 2) ∧ seriesIndexWidth 1 = some 2 :=
  ⟨by decide, (seriesIndexWidth_pos 5 (by decide)).1, (seriesIndexWidth_pos 5 (by decide)).2⟩

theorem natDigits_ne_nil (k : Nat) : natDigits k ≠ [] := by
  by_cases h : k < 10
  · rw [natDigits_small h]
    simp
  · rw [natDigits_step (by omega)]
    simp

theorem serialAt_xName (k : Nat) (hk : 1 ≤ k) :
    serialAt (xName k) 1 = some (['X'], k) := by
  match k, hk with
  | k + 1, _ =>
    have hred : serialAt ('X' :: ' ' :: '(' :: (natDigits (k + 1) ++ [')'])) 1
        = if (' ' : Char) = ' ' ∧ ('(' : Char) = '(' ∧
            (natDigits (k + 1) ++ [')']).getLast? = some ')' ∧
            (natDigits (k + 1) ++ [')']).dropLast ≠ [] ∧
            (natDigits (k + 1) ++ [')']).dropLast.all Char.isDigit then
          some (['X'], digitsVal (natDigits (k + 1) ++ [')']).dropLast)
        else none := rfl
    have hcond : (' ' : Char) = ' ' ∧ ('(' : Char) = '(' ∧
        (natDigits (k + 1) ++ [')']).getLast? = some ')' ∧
        (natDigits (k + 1) ++ [')']).dropLast ≠ [] ∧
        (natDigits (k + 1) ++ [')']).dropLast.all Char.isDigit := by
      refine ⟨rfl, rfl, List.getLast?_concat _, ?_, ?_⟩
      · rw [List.dropLast_concat]
        exact natDigits_ne_nil _
      · rw [List.dropLast_concat]
        exact List.all_eq_true.mpr (fun c hc => natDigits_all_digit _ c hc)
    show serialAt ('X' :: ' ' :: '(' :: (natDigits (k + 1) ++ [')'])) 1 = _
    rw [hred, if_pos hcond, List.dropLast_concat, digitsVal_natDigits]

theorem range_findSome_first {α : Type} (f : Nat → Option α) (len : Nat) (v : α)
    (hlen : 1 ≤ len) (h : f 0 = some v) : (List.range len).findSome? f = some v := by
  match len, hlen with
  | m + 1, _ =>
    rw [List.range_succ_eq_map, List.findSome?_cons]
    rw [h]

theorem serialMatch_xName (k : Nat) (hk : 1 ≤ k) :
    serialMatch (xName k) = some (['X'], k) := by
  unfold serialMatch
  apply range_findSome_first _ _ _ ?_ (serialAt_xName k hk)
  match k, hk with
  | k + 1, _ =>
    show 1 ≤ ('X' :: ' ' :: '(' :: (natDigits (k + 1) ++ [')'])).length
    simp

theorem nextAltName_xName (k : Nat) : nextAltName (xName k) = xName (k + 1) := by
  match k with
  | 0 => decide
  | k + 1 =>
    unfold nextAltName
    rw [serialMatch_xName (k + 1) (by omega)]
    rfl

theorem xName_inj {a b : Nat} (h : xName a = xName b) : a = b := by
  match a, b with
  | 0, 0 => rfl
  | 0, b + 1 => simp [xName] at h
  | a + 1, 0 => simp [xName] at h
  | a + 1, b + 1 =>
    simp only [xName, List.cons.injEq, true_and] at h
    have h2 : natDigits (a + 1) ++ [')'] = natDigits (b + 1) ++ [')'] := h
    have h3 : natDigits (a + 1) = natDigits (b + 1) := List.append_cancel_right h2
    exact natDigits_inj h3

theorem xName_not_mem_scenario (n : Nat) :
    xName (n + 1) ∉ (xScenario n).dirs := by
  intro hmem
  obtain ⟨i, hi, heq⟩ := List.mem_map.mp hmem
  have h1 := xName_inj heq
  have h2 := List.mem_range.mp hi
  omega

theorem contains_eq_false_of_not_mem {l : List (List Char)} {p : List Char}
    (h : p ∉ l) : l.contains p = false := by
  cases hc : l.contains p
  · rfl
  · exact absurd (List.mem_of_elem_eq_true hc) h

theorem makeUniqueDir_succ_eq (fs : FsState) (p : List Char) (fuel : Nat) :
    makeUniqueDir fs p (fuel + 1)
      = (match fsMkdir fs p with
         | .ok fs' => some (.ok (p, fs'))
         | .error e =>
           if fs.dirs.contains p then makeUniqueDir fs (nextAltName p) fuel
           else some (.error e)) := rfl

theorem makeUniqueDir_succ_ok (fs fs' : FsState) (p : List Char) (fuel : Nat)
    (h : fsMkdir fs p = .ok fs') :
    makeUniqueDir fs p (fuel + 1) = some (.ok (p, fs')) := by
  rw [makeUniqueDir_succ_eq, h]

theorem makeUniqueDir_succ_retry (fs : FsState) (p : List Char) (fuel : Nat) (e : OSErr)
    (h : fsMkdir fs p = .error e) (hd : fs.dirs.contains p = true) :
    makeUniqueDir fs p (fuel + 1) = makeUniqueDir fs (nextAltName p) fuel := by
  rw [makeUniqueDir_succ_eq, h]
  show (if fs.dirs.contains p = true then makeUniqueDir fs (nextAltName p) fuel
        else some (.error e)) = makeUniqueDir fs (nextAltName p) fuel
  rw [hd]
  simp

theorem makeUniqueDir_succ_raise (fs : FsState) (p : List Char) (fuel : Nat) (e : OSErr)
    (h : fsMkdir fs p = .error e) (hd : fs.dirs.contains p = false) :
    makeUniqueDir fs p (fuel + 1) = some (.error e) := by
  rw [makeUniqueDir_succ_eq, h]
  show (if fs.dirs.contains p = true then makeUniqueDir fs (nextAltName p) fuel
        else some (.error e)) = some (.error e)
  rw [hd]
  simp

theorem makeUniqueDir_scenario_aux (n : Nat) : ∀ m k, k + m = n + 1 →
    makeUniqueDir (xScenario n) (xName k) (m + 1)
      = some (.ok (xName (n + 1),
          { dirs := xName (n + 1) :: (xScenario n).dirs, files := [], denied := [] })) := by
  intro m
  induction m with
  | zero =>
    intro k hk
    have hk1 : k = n + 1 := by omega
    subst hk1
    have hc : (xScenario n).dirs.contains (xName (n + 1)) = false :=
      contains_eq_false_of_not_mem (xName_not_mem_scenario n)
    have hmk : fsMkdir (xScenario n) (xName (n + 1))
        = .ok { dirs := xName (n + 1) :: (xScenario n).dirs, files := [], denied := [] } := by
      unfold fsMkdir
      rw [hc]
      rfl
    exact makeUniqueDir_succ_ok _ _ _ 0 hmk
  | succ m ih =>
    intro k hk
    have hmem : xName k ∈ (xScenario n).dirs :=
      List.mem_map_of_mem xName (List.mem_range.mpr (by omega))
    have hct : (xScenario n).dirs.contains (xName k) = true :=
      List.elem_eq_true_of_mem hmem
    have hmk : fsMkdir (xScenario n) (xName k) = .error .fileExists := by
      unfold fsMkdir
      rw [hct]
      rfl
    rw [makeUniqueDir_succ_retry _ _ _ _ hmk hct, nextAltName_xName]
    exact ih (k + 1) (by omega)

/-- Claim C7: creating two series with the same suggested directory name
yields `X` and `X (1)` and never overwrites the first; on an already-exists
failure the ` (n)` suffix is appended or incremented and the creation
retried, which succeeds for any number of pre-existing same-named
directories; any other directory-creation error propagates unchanged. -/
theorem makeUniqueDir_spec :
    (makeUniqueDir ⟨[], [], []⟩ ['X'] 1 = some (.ok (['X'], ⟨[['X']], [], []⟩)) ∧
      makeUniqueDir ⟨[['X']], [], []⟩ ['X'] 2
        = some (.ok (chars (r"X (1)"), ⟨[chars (r"X (1)"), ['X']], [], []⟩))) ∧
    (∀ n, makeUniqueDir (xScenario n) ['X'] (n + 2)
        = some (.ok (xName (n + 1),
            { dirs := xName (n + 1) :: (xScenario n).dirs, files := [], denied := [] })) ∧
      xName (n + 1) ∉ (xScenario n).dirs) ∧
    (∀ (fs : FsState) (p : List Char) (fuel : Nat) (e : OSErr),
      fs.dirs.contains p = false → fsMkdir fs p = .error e →
      makeUniqueDir fs p (fuel + 1) = some (.error e)) := by
  refine ⟨⟨rfl, rfl⟩, fun n => ⟨?_, xName_not_mem_scenario n⟩, ?_⟩
  · exact makeUniqueDir_scenario_aux n (n + 1) 0 (by omega)
  · intro fs p fuel e h1 h2
    exact makeUniqueDir_succ_raise fs p fuel e h2 h1

theorem makeUniqueDir_spec_witness :
    (FsState.mk [] [] [['Y']]).dirs.contains ['Y'] = false ∧
    fsMkdir ⟨[], [], [['Y']]⟩ ['Y'] = .error .permission ∧
    makeUniqueDir ⟨[], [], [['Y']]⟩ ['Y'] 1 = some (.error .permission) :=
  ⟨rfl, rfl, makeUniqueDir_spec.2.2 ⟨[], [], [['Y']]⟩ ['Y'] 0 .permission rfl rfl⟩


/-- Claim C5: for every VR in the string family, coercion splits the raw
string on the backslash delimiter and returns a scalar string for a single
segment and a vector of strings for several; for every VR in the integer
family (including the "US or SS" pseudo-VR) the same split is parsed per
segment as an integer, raising on invalid numeric text rather than silently
truncating. -/
theorem parse_dcm_value_families :
    (∀ vr ∈ STR_VR, ∀ value : List Char,
      parse_dcm_value value vr
        = (match splitBS value with
           | [_] => .ok (.str value)
           | parts => .ok (.strs parts)) ∧
      parse_dcm_value (chars (r"a\b\c")) vr
        = .ok (.strs [chars (r"a"), chars (r"b"), chars (r"c")]) ∧
      parse_dcm_value (chars (r"a")) vr = .ok (.str (chars (r"a")))) ∧
    (∀ vr ∈ intBranchVRs, ∀ value : List Char,
      parse_dcm_value value vr
        = (match splitBS value with
           | [_] =>
             (match pyInt value with
              | some v => .ok (.int v)
              | none => .error .badNum)
           | parts =>
             (match parts.mapM pyInt with
              | some vs => .ok (.ints vs)
              | none => .error .badNum)) ∧
      parse_dcm_value (chars (r"1\2\3")) vr = .ok (.ints [1, 2, 3]) ∧
      parse_dcm_value (chars (r"1.5")) vr = .error .badNum) := by
  constructor
  · intro vr hvr value
    fin_cases hvr <;> exact ⟨rfl, by decide, by decide⟩
  · intro vr hvr value
    fin_cases hvr <;> exact ⟨rfl, by decide, by decide⟩

theorem parse_dcm_value_families_witness :
    VRCode.LO ∈ STR_VR ∧ VRCode.US ∈ intBranchVRs ∧
    parse_dcm_value (chars (r"a\b\c")) .LO
      = .ok (.strs [chars (r"a"), chars (r"b"), chars (r"c")]) ∧
    parse_dcm_value (chars (r"1\2\3")) .US = .ok (.ints [1, 2, 3]) :=
  ⟨by decide, by decide,
    (parse_dcm_value_families.1 .LO (by decide) []).2.1,
    (parse_dcm_value_families.2 .US (by decide) []).2.1⟩

theorem isUnsupported_parse_iff (vr : VRCode) (value : List Char) :
    isUnsupportedResult (parse_dcm_value value vr) = true ↔
      (¬vr = .AT ∧ STR_VR.contains vr = false ∧
        (INT_VR.contains vr || vr = .USorSS) = false ∧ FLOAT_VR.contains vr = false) := by
  unfold parse_dcm_value
  by_cases h1 : vr = .AT
  · rw [if_pos h1]
    apply iff_of_false
    · cases hp : pyTag value <;> simp [isUnsupportedResult]
    · rintro ⟨hA, _, _, _⟩
      exact hA h1
  · rw [if_neg h1]
    by_cases h2 : STR_VR.contains vr = true
    · rw [if_pos h2]
      apply iff_of_false
      · cases hsp : splitBS value with
        | nil => simp [isUnsupportedResult]
        | cons a tl => cases tl <;> simp [isUnsupportedResult]
      · rintro ⟨_, hS, _, _⟩
        rw [hS] at h2
        simp at h2
    · rw [if_neg h2]
      have h2f : STR_VR.contains vr = false := by
        cases hc : STR_VR.contains vr
        · rfl
        · exact absurd hc h2
      by_cases h3 : (INT_VR.contains vr || vr = .USorSS) = true
      · rw [if_pos h3]
        apply iff_of_false
        · cases hsp : splitBS value with
          | nil => simp [isUnsupportedResult, List.mapM.loop]
          | cons a tl =>
            cases tl with
            | nil => cases hm : pyInt value <;> simp [isUnsupportedResult]
            | cons b tl2 =>
              cases hm : List.mapM.loop pyInt (a :: b :: tl2) [] <;>
                simp [isUnsupportedResult, hm]
        · rintro ⟨_, _, hI, _⟩
          rw [hI] at h3
          simp at h3
      · rw [if_neg h3]
        have h3f : (INT_VR.contains vr || vr = .USorSS) = false := by
          cases hc : (INT_VR.contains vr || vr = .USorSS)
          · rfl
          · exact absurd hc h3
        by_cases h4 : FLOAT_VR.contains vr = true
        · rw [if_pos h4]
          apply iff_of_false
          · cases hsp : splitBS value with
            | nil => simp [isUnsupportedResult]
            | cons a tl =>
              cases tl with
              | nil => cases hf : pyFloatOk value <;> simp [isUnsupportedResult, hf]
              | cons b tl2 =>
                cases hf : (a :: b :: tl2).all pyFloatOk <;> simp [isUnsupportedResult, hf]
          · rintro ⟨_, _, _, hF⟩
            rw [hF] at h4
            simp at h4
        · rw [if_neg h4]
          have h4f : FLOAT_VR.contains vr = false := by
            cases hc : FLOAT_VR.contains vr
            · rfl
            · exact absurd hc h4
          exact iff_of_true rfl ⟨h1, h2f, h3f, h4f⟩

theorem notMem_supported_iff (vr : VRCode) :
    (¬vr = .AT ∧ STR_VR.contains vr = false ∧
      (INT_VR.contains vr || vr = .USorSS) = false ∧ FLOAT_VR.contains vr = false) ↔
    vr ∉ supportedVRs := by
  cases vr <;> decide

/-- Claim C6: coercion raises `UnsupportedVR` exactly for VR codes outside
the four supported families (tag-reference, string family, integer family
including "US or SS", float family); for the tag-reference VR it parses the
raw value as a `(group, element)` pair and returns a Tag value instead of
raising. -/
theorem parse_dcm_value_unsupported :
    (∀ (vr : VRCode) (value : List Char),
      isUnsupportedResult (parse_dcm_value value vr) = true ↔ vr ∉ supportedVRs) ∧
    (∀ (value : List Char) (t : DcmTag), pyTag value = some t →
      parse_dcm_value value .AT = .ok (.tag t)) ∧
    parse_dcm_value (chars (r"00100020")) .AT = .ok (.tag ⟨16, 32⟩) := by
  refine ⟨fun vr value => (isUnsupported_parse_iff vr value).trans (notMem_supported_iff vr),
    fun value t h => ?_, by decide⟩
  have hred : parse_dcm_value value .AT
      = (match pyTag value with
         | some t => .ok (.tag t)
         | none => .error .badTag) := rfl
  rw [hred, h]

theorem parse_dcm_value_unsupported_witness :
    isUnsupportedResult (parse_dcm_value (chars (r"x")) .SQ) = true ∧
    VRCode.SQ ∉ supportedVRs ∧
    pyTag (chars (r"00100020")) = some ⟨16, 32⟩ ∧
    parse_dcm_value (chars (r"00100020")) .AT = .ok (.tag ⟨16, 32⟩) :=
  ⟨(parse_dcm_value_unsupported.1 .SQ (chars (r"x"))).mpr (by decide), by decide, by decide,
    parse_dcm_value_unsupported.2.1 (chars (r"00100020")) ⟨16, 32⟩ (by decide)⟩

theorem dsGet_cons_same (d : List (DcmTag × DsVal)) (t : DcmTag) (v : DsVal) :
    dsGet ((t, v) :: d) t = some v := by
  simp [dsGet]

theorem dsGet_cons_ne (d : List (DcmTag × DsVal)) (t t' : DcmTag) (v : DsVal)
    (h : ¬t = t') : dsGet ((t, v) :: d) t' = dsGet d t' := by
  simp [dsGet, h]

/-- Claim C1 counterexample: with no input tags, hinacom's assembler raises
(`ds.SOPClassUID` is missing — nothing is synthesized), and xa_data's
assembler synthesizes the same fixed default class identifier
`1.2.840.10008.5.1.4.1.1.2` whatever fresh identifier `generate_uid`
returns, so the class identifier is not a newly generated one. -/
theorem assembleIds_cex :
    hinacomAssembleIds sampleDict [] = .error (.missingAttr sopClassTag) ∧
    dsGet (xaAssembleIds sampleDict [] (chars (r"9.9.9.1"))).ds sopClassTag
      = some (.parsed (.str xaDefaultSOPClass)) ∧
    dsGet (xaAssembleIds sampleDict [] (chars (r"9.9.9.2"))).ds sopClassTag
      = some (.parsed (.str xaDefaultSOPClass)) ∧
    xaDefaultSOPClass ≠ chars (r"9.9.9.1") :=
  ⟨rfl, by decide, by decide, by decide⟩

theorem xa_assemble_ids_spec (dict : DcmTag → Option VRCode) (items : List TagItem)
    (u : List Char) :
    dsGet (xaAssembleIds dict items u).meta msSopClassTag
      = dsGet (xaAssembleIds dict items u).ds sopClassTag ∧
    dsGet (xaAssembleIds dict items u).meta msSopInstanceTag
      = dsGet (xaAssembleIds dict items u).ds sopInstanceTag ∧
    (dsGet (xaLoop dict items).ds sopClassTag = none →
      dsGet (xaAssembleIds dict items u).ds sopClassTag
        = some (.parsed (.str xaDefaultSOPClass))) ∧
    (dsGet (xaLoop dict items).ds sopInstanceTag = none →
      dsGet (xaAssembleIds dict items u).ds sopInstanceTag = some (.parsed (.str u))) := by
  unfold xaAssembleIds
  cases hc : dsGet (xaLoop dict items).ds sopClassTag with
  | some c =>
    simp only [hc]
    cases hi : dsGet (xaLoop dict items).ds sopInstanceTag with
    | some i =>
      simp only [hi]
      refine ⟨?_, ?_, fun habs => absurd habs (by simp), fun habs => absurd habs (by simp)⟩
      · rw [dsGet_cons_ne _ _ _ _ (by decide), dsGet_cons_same]
        exact hc.symm
      · rw [dsGet_cons_same]
    | none =>
      simp only [hi]
      refine ⟨?_, ?_, fun habs => absurd habs (by simp), fun _ => ?_⟩
      · rw [dsGet_cons_ne _ _ _ _ (by decide), dsGet_cons_same,
          dsGet_cons_ne _ _ _ _ (by decide)]
        exact hc.symm
      · rw [dsGet_cons_same, dsGet_cons_same]
      · rw [dsGet_cons_same]
  | none =>
    simp only [hc, dsGet_cons_same]
    rw [dsGet_cons_ne _ sopClassTag sopInstanceTag _ (by decide)]
    cases hi : dsGet (xaLoop dict items).ds sopInstanceTag with
    | some i =>
      simp only [hi]
      refine ⟨?_, ?_, fun _ => ?_, fun habs => absurd habs (by simp)⟩
      · rw [dsGet_cons_ne _ _ _ _ (by decide), dsGet_cons_same, dsGet_cons_same]
      · rw [dsGet_cons_same, dsGet_cons_ne _ _ _ _ (by decide)]
        exact hi.symm
      · rw [dsGet_cons_same]
    | none =>
      simp only [hi]
      refine ⟨?_, ?_, fun _ => ?_, fun _ => ?_⟩
      · rw [dsGet_cons_ne _ _ _ _ (by decide), dsGet_cons_same,
          dsGet_cons_ne _ _ _ _ (by decide), dsGet_cons_same]
      · rw [dsGet_cons_same, dsGet_cons_same]
      · rw [dsGet_cons_ne _ _ _ _ (by decide), dsGet_cons_same]
      · rw [dsGet_cons_same]

theorem hinacom_assemble_ids_ok (dict : DcmTag → Option VRCode) (items : List TagItem)
    (st : DicomState) (h : hinacomAssembleIds dict items = .ok st) :
    dsGet st.meta msSopClassTag = dsGet st.ds sopClassTag ∧
    dsGet st.meta msSopInstanceTag = dsGet st.ds sopInstanceTag := by
  unfold hinacomAssembleIds at h
  split at h
  · exact Except.noConfusion h
  · rename_i st0 hloop
    split at h
    · exact Except.noConfusion h
    · rename_i c hc
      split at h
      · exact Except.noConfusion h
      · rename_i i hi
        injection h with h2
        subst h2
        constructor
        · show dsGet ((msSopInstanceTag, i) :: (msSopClassTag, c) :: st0.meta)
              msSopClassTag = _
          rw [dsGet_cons_ne _ _ _ _ (by decide), dsGet_cons_same, hc]
        · show dsGet ((msSopInstanceTag, i) :: (msSopClassTag, c) :: st0.meta)
              msSopInstanceTag = _
          rw [dsGet_cons_same, hi]

theorem hinacom_assemble_missing (dict : DcmTag → Option VRCode) (items : List TagItem)
    (st : DicomState) (h : hinacomLoop dict items = .ok st)
    (hc : dsGet st.ds sopClassTag = none) :
    hinacomAssembleIds dict items = .error (.missingAttr sopClassTag) := by
  unfold hinacomAssembleIds
  simp only [h, hc]

/-- Claim C1 (amended): the assemblers mirror the dataset SOP class/instance
identifiers into the meta header so the meta identifiers always equal the
dataset ones, but synthesis differs from the claim: xa_data replaces a
missing SOPClassUID with the fixed default `1.2.840.10008.5.1.4.1.1.2` (not
a newly generated identifier) and a missing SOPInstanceUID with the freshly
generated identifier; hinacom mirrors without synthesizing and fails when
the dataset class identifier is absent. -/
theorem assembleIds_spec :
    (∀ (dict : DcmTag → Option VRCode) (items : List TagItem) (u : List Char),
      dsGet (xaAssembleIds dict items u).meta msSopClassTag
        = dsGet (xaAssembleIds dict items u).ds sopClassTag ∧
      dsGet (xaAssembleIds dict items u).meta msSopInstanceTag
        = dsGet (xaAssembleIds dict items u).ds sopInstanceTag ∧
      (dsGet (xaLoop dict items).ds sopClassTag = none →
        dsGet (xaAssembleIds dict items u).ds sopClassTag
          = some (.parsed (.str xaDefaultSOPClass))) ∧
      (dsGet (xaLoop dict items).ds sopInstanceTag = none →
        dsGet (xaAssembleIds dict items u).ds sopInstanceTag
          = some (.parsed (.str u)))) ∧
    (∀ (dict : DcmTag → Option VRCode) (items : List TagItem) (st : DicomState),
      hinacomAssembleIds dict items = .ok st →
      dsGet st.meta msSopClassTag = dsGet st.ds sopClassTag ∧
      dsGet st.meta msSopInstanceTag = dsGet st.ds sopInstanceTag) ∧
    (∀ (dict : DcmTag → Option VRCode) (items : List TagItem) (st : DicomState),
      hinacomLoop dict items = .ok st → dsGet st.ds sopClassTag = none →
      hinacomAssembleIds dict items = .error (.missingAttr sopClassTag)) :=
  ⟨xa_assemble_ids_spec, hinacom_assemble_ids_ok, hinacom_assemble_missing⟩

theorem assembleIds_spec_witness :
    dsGet (xaAssembleIds sampleDict [] (chars (r"9.9.9.1"))).meta msSopClassTag
      = dsGet (xaAssembleIds sampleDict [] (chars (r"9.9.9.1"))).ds sopClassTag ∧
    dsGet (xaLoop sampleDict []).ds sopClassTag = none ∧
    dsGet (xaAssembleIds sampleDict [] (chars (r"9.9.9.1"))).ds sopClassTag
      = some (.parsed (.str xaDefaultSOPClass)) ∧
    hinacomLoop sampleDict [] = .ok ⟨[], []⟩ ∧
    hinacomAssembleIds sampleDict [] = .error (.missingAttr sopClassTag) :=
  ⟨(assembleIds_spec.1 sampleDict [] (chars (r"9.9.9.1"))).1, by decide,
    (assembleIds_spec.1 sampleDict [] (chars (r"9.9.9.1"))).2.2.1 (by decide), rfl,
    assembleIds_spec.2.2 sampleDict [] ⟨[], []⟩ rfl (by decide)⟩

theorem tdcloudStep_group2 (dict : DcmTag → Option VRCode) (st st' : DicomState)
    (it : TagItem) (h : tdcloudStep dict st it = .ok st')
    (hinv : ∀ p ∈ st.ds, p.1.group ≠ 2) : ∀ p ∈ st'.ds, p.1.group ≠ 2 := by
  unfold tdcloudStep at h
  split at h
  · split at h
    · injection h with h2
      subst h2
      exact hinv
    · split at h
      · injection h with h2
        subst h2
        exact hinv
      · exact Except.noConfusion h
  · rename_i hg
    split at h
    · split at h
      · injection h with h2
        subst h2
        intro p hp
        rcases List.mem_cons.mp hp with hp | hp
        · subst hp
          exact hg
        · exact hinv p hp
      · exact Except.noConfusion h
    · injection h with h2
      subst h2
      intro p hp
      rcases List.mem_cons.mp hp with hp | hp
      · subst hp
        exact hg
      · exact hinv p hp

theorem hinacomStep_group2 (dict : DcmTag → Option VRCode) (st st' : DicomState)
    (it : TagItem) (h : hinacomStep dict st it = .ok st')
    (hinv : ∀ p ∈ st.ds, p.1.group ≠ 2) : ∀ p ∈ st'.ds, p.1.group ≠ 2 := by
  unfold hinacomStep at h
  split at h
  · split at h
    · exact Except.noConfusion h
    · split at h
      · injection h with h2
        subst h2
        exact hinv
      · exact Except.noConfusion h
  · rename_i hg
    split at h
    · split at h
      · injection h with h2
        subst h2
        intro p hp
        rcases List.mem_cons.mp hp with hp | hp
        · subst hp
          exact hg
        · exact hinv p hp
      · exact Except.noConfusion h
    · injection h with h2
      subst h2
      intro p hp
      rcases List.mem_cons.mp hp with hp | hp
      · subst hp
        exact hg
      · exact hinv p hp

theorem tdcloudLoopFrom_group2 (dict : DcmTag → Option VRCode) :
    ∀ (items : List TagItem) (st0 st : DicomState),
    tdcloudLoopFrom dict st0 items = .ok st → (∀ p ∈ st0.ds, p.1.group ≠ 2) →
    ∀ p ∈ st.ds, p.1.group ≠ 2 := by
  intro items
  induction items with
  | nil =>
    intro st0 st h hinv
    unfold tdcloudLoopFrom at h
    rw [List.foldlM_nil] at h
    injection h with h2
    subst h2
    exact hinv
  | cons x xs ih =>
    intro st0 st h hinv
    unfold tdcloudLoopFrom at h
    rw [List.foldlM_cons] at h
    cases hstep : tdcloudStep dict st0 x with
    | error e =>
      rw [hstep] at h
      exact Except.noConfusion h
    | ok s1 =>
      rw [hstep] at h
      exact ih s1 st h (tdcloudStep_group2 dict st0 s1 x hstep hinv)

theorem hinacomLoopFrom_group2 (dict : DcmTag → Option VRCode) :
    ∀ (items : List TagItem) (st0 st : DicomState),
    hinacomLoopFrom dict st0 items = .ok st → (∀ p ∈ st0.ds, p.1.group ≠ 2) →
    ∀ p ∈ st.ds, p.1.group ≠ 2 := by
  intro items
  induction items with
  | nil =>
    intro st0 st h hinv
    unfold hinacomLoopFrom at h
    rw [List.foldlM_nil] at h
    injection h with h2
    subst h2
    exact hinv
  | cons x xs ih =>
    intro st0 st h hinv
    unfold hinacomLoopFrom at h
    rw [List.foldlM_cons] at h
    cases hstep : hinacomStep dict st0 x with
    | error e =>
      rw [hstep] at h
      exact Except.noConfusion h
    | ok s1 =>
      rw [hstep] at h
      exact ih s1 st h (hinacomStep_group2 dict st0 s1 x hstep hinv)

theorem tdcloudLoop_append_unknown (dict : DcmTag → Option VRCode) (items : List TagItem)
    (st : DicomState) (t : DcmTag) (v : List Char) (hd : dict t = none)
    (hg : ¬t.group = 2) (h : tdcloudLoop dict items = .ok st) :
    tdcloudLoop dict (items ++ [⟨t, v⟩]) = .ok ⟨(t, .lo v) :: st.ds, st.meta⟩ := by
  have hstep : tdcloudStep dict st ⟨t, v⟩ = .ok ⟨(t, .lo v) :: st.ds, st.meta⟩ := by
    unfold tdcloudStep
    rw [if_neg hg]
    simp only [hd]
  unfold tdcloudLoop tdcloudLoopFrom at *
  rw [List.foldlM_append, h]
  show (tdcloudStep dict st ⟨t, v⟩ >>= fun s => List.foldlM (tdcloudStep dict) s []) = _
  rw [hstep]
  rfl

theorem hinacomLoop_append_unknown (dict : DcmTag → Option VRCode) (items : List TagItem)
    (st : DicomState) (t : DcmTag) (v : List Char) (hd : dict t = none)
    (hg : ¬t.group = 2) (h : hinacomLoop dict items = .ok st) :
    hinacomLoop dict (items ++ [⟨t, v⟩]) = .ok ⟨(t, .lo v) :: st.ds, st.meta⟩ := by
  have hstep : hinacomStep dict st ⟨t, v⟩ = .ok ⟨(t, .lo v) :: st.ds, st.meta⟩ := by
    unfold hinacomStep
    rw [if_neg hg]
    simp only [hd]
  unfold hinacomLoop hinacomLoopFrom at *
  rw [List.foldlM_append, h]
  show (hinacomStep dict st ⟨t, v⟩ >>= fun s => List.foldlM (hinacomStep dict) s []) = _
  rw [hstep]
  rfl

theorem tdcloudLoop_append_group2_unknown (dict : DcmTag → Option VRCode)
    (items : List TagItem) (st : DicomState) (t : DcmTag) (v : List Char)
    (hd : dict t = none) (hg : t.group = 2) (h : tdcloudLoop dict items = .ok st) :
    tdcloudLoop dict (items ++ [⟨t, v⟩]) = .ok st := by
  have hstep : tdcloudStep dict st ⟨t, v⟩ = .ok st := by
    unfold tdcloudStep
    rw [if_pos hg]
    simp only [hd]
  unfold tdcloudLoop tdcloudLoopFrom at *
  rw [List.foldlM_append, h]
  show (tdcloudStep dict st ⟨t, v⟩ >>= fun s => List.foldlM (tdcloudStep dict) s []) = _
  rw [hstep]
  rfl

theorem hinacomLoop_append_group2_unknown (dict : DcmTag → Option VRCode)
    (items : List TagItem) (st : DicomState) (t : DcmTag) (v : List Char)
    (hd : dict t = none) (hg : t.group = 2) (h : hinacomLoop dict items = .ok st) :
    hinacomLoop dict (items ++ [⟨t, v⟩]) = .error (.typeErrNone t) := by
  have hstep : hinacomStep dict st ⟨t, v⟩ = .error (.typeErrNone t) := by
    unfold hinacomStep
    rw [if_pos hg]
    simp only [hd]
  unfold hinacomLoop hinacomLoopFrom at *
  rw [List.foldlM_append, h]
  show (hinacomStep dict st ⟨t, v⟩ >>= fun s => List.foldlM (hinacomStep dict) s []) = _
  rw [hstep]
  rfl

/-- Claim C3 counterexample: a group-2 tag absent from the public dictionary
— `(0002,0099)` — is not stored verbatim in the dataset: tdcloud's assembler
silently drops it (it appears in neither subset), and hinacom's assembler
aborts with a `TypeError` (`definition[0]` on `None`). -/
theorem tagRouting_cex :
    tdcloudLoop sampleDict [⟨⟨2, 153⟩, chars (r"v")⟩] = .ok ⟨[], []⟩ ∧
    dsGet (⟨[], []⟩ : DicomState).ds ⟨2, 153⟩ = none ∧
    dsGet (⟨[], []⟩ : DicomState).meta ⟨2, 153⟩ = none ∧
    hinacomLoop sampleDict [⟨⟨2, 153⟩, chars (r"v")⟩] = .error (.typeErrNone ⟨2, 153⟩) :=
  ⟨rfl, rfl, rfl, rfl⟩

/-- Claim C3 (amended): the assembled main dataset never contains a group-2
element, and a non-group-2 tag not found in the public dictionary is stored
verbatim as an LO element in the dataset (never in the meta header) without
aborting assembly, in both the tdcloud and the hinacom assembler; a
*group-2* tag not found in the dictionary is, however, silently dropped by
tdcloud's assembler and aborts hinacom's assembly with a `TypeError`. -/
theorem tagRouting_spec :
    (∀ (dict : DcmTag → Option VRCode) (items : List TagItem) (st : DicomState),
      tdcloudLoop dict items = .ok st → ∀ p ∈ st.ds, p.1.group ≠ 2) ∧
    (∀ (dict : DcmTag → Option VRCode) (items : List TagItem) (st : DicomState),
      hinacomLoop dict items = .ok st → ∀ p ∈ st.ds, p.1.group ≠ 2) ∧
    (∀ (dict : DcmTag → Option VRCode) (items : List TagItem) (st : DicomState)
        (t : DcmTag) (v : List Char), dict t = none → ¬t.group = 2 →
      tdcloudLoop dict items = .ok st →
      tdcloudLoop dict (items ++ [⟨t, v⟩]) = .ok ⟨(t, .lo v) :: st.ds, st.meta⟩ ∧
      dsGet ((t, .lo v) :: st.ds) t = some (.lo v)) ∧
    (∀ (dict : DcmTag → Option VRCode) (items : List TagItem) (st : DicomState)
        (t : DcmTag) (v : List Char), dict t = none → ¬t.group = 2 →
      hinacomLoop dict items = .ok st →
      hinacomLoop dict (items ++ [⟨t, v⟩]) = .ok ⟨(t, .lo v) :: st.ds, st.meta⟩ ∧
      dsGet ((t, .lo v) :: st.ds) t = some (.lo v)) ∧
    (∀ (dict : DcmTag → Option VRCode) (items : List TagItem) (st : DicomState)
        (t : DcmTag) (v : List Char), dict t = none → t.group = 2 →
      (tdcloudLoop dict items = .ok st → tdcloudLoop dict (items ++ [⟨t, v⟩]) = .ok st) ∧
      (hinacomLoop dict items = .ok st →
        hinacomLoop dict (items ++ [⟨t, v⟩]) = .error (.typeErrNone t))) := by
  refine ⟨fun dict items st h => tdcloudLoopFrom_group2 dict items _ st h (by simp),
    fun dict items st h => hinacomLoopFrom_group2 dict items _ st h (by simp),
    fun dict items st t v hd hg h =>
      ⟨tdcloudLoop_append_unknown dict items st t v hd hg h, dsGet_cons_same _ _ _⟩,
    fun dict items st t v hd hg h =>
      ⟨hinacomLoop_append_unknown dict items st t v hd hg h, dsGet_cons_same _ _ _⟩,
    fun dict items st t v hd hg =>
      ⟨tdcloudLoop_append_group2_unknown dict items st t v hd hg,
        hinacomLoop_append_group2_unknown dict items st t v hd hg⟩⟩

theorem tagRouting_spec_witness :
    sampleDict ⟨9, 1⟩ = none ∧ ¬(⟨9, 1⟩ : DcmTag).group = 2 ∧
    tdcloudLoop sampleDict [] = .ok ⟨[], []⟩ ∧
    tdcloudLoop sampleDict [⟨⟨9, 1⟩, chars (r"w")⟩]
      = .ok ⟨[(⟨9, 1⟩, .lo (chars (r"w")))], []⟩ ∧
    hinacomLoop sampleDict [] = .ok ⟨[], []⟩ ∧
    hinacomLoop sampleDict [⟨⟨9, 1⟩, chars (r"w")⟩]
      = .ok ⟨[(⟨9, 1⟩, .lo (chars (r"w")))], []⟩ ∧
    sampleDict ⟨2, 153⟩ = none ∧
    hinacomLoop sampleDict ([] ++ [⟨⟨2, 153⟩, chars (r"v")⟩])
      = .error (.typeErrNone ⟨2, 153⟩) :=
  ⟨by decide, by decide, rfl,
    (tagRouting_spec.2.2.1 sampleDict [] ⟨[], []⟩ ⟨9, 1⟩ (chars (r"w"))
      (by decide) (by decide) rfl).1,
    rfl,
    (tagRouting_spec.2.2.2.1 sampleDict [] ⟨[], []⟩ ⟨9, 1⟩ (chars (r"w"))
      (by decide) (by decide) rfl).1,
    by decide,
    (tagRouting_spec.2.2.2.2 sampleDict [] ⟨[], []⟩ ⟨2, 153⟩ (chars (r"v"))
      (by decide) (by decide)).2 rfl⟩

/-- Claim C2 counterexample: bytes carrying the `ftypjp2` box signature at
offset 16 whose length exactly equals `rows * columns * ceil(bits/8)` are
written as *uncompressed* `ExplicitVRLittleEndian` by hinacom's assembler
(the JPEG 2000 branch requires the length to differ), and signature-less
bytes are classified uncompressed even when their length does not match. -/
theorem hinacomPixel_cex :
    ((List.replicate 16 0 ++ ftypjp2sig).drop 16).take 7 = ftypjp2sig ∧
    (List.replicate 16 0 ++ ftypjp2sig).length = pxSize 8 1 23 ∧
    hinacomPixel 8 1 23 (List.replicate 16 0 ++ ftypjp2sig) = .explicitVRLittleEndian ∧
    [0].length ≠ pxSize 8 2 2 ∧
    hinacomPixel 8 2 2 [0] = .explicitVRLittleEndian := by
  refine ⟨by decide, by decide, by decide, by decide, by decide⟩

/-- Claim C2 (amended): hinacom classifies bytes as encapsulated JPEG 2000
exactly when `bytes[16:23] = "ftypjp2"` AND the length differs from
`rows * columns * ceil(bits_allocated/8)`, and as uncompressed otherwise
regardless of length; xa_data classifies bytes that do not start with the
JPEG marker but contain an `ftyp` box signature in the first 64 bytes as a
raw JPEG 2000 codestream whatever their length. -/
theorem pixelClassification_spec :
    (∀ (bits rows cols : Nat) (image : List Nat),
      hinacomPixel bits rows cols image = .jpeg2000Lossless ↔
        ((image.drop 16).take 7 = ftypjp2sig ∧ image.length ≠ pxSize bits rows cols)) ∧
    (∀ image : List Nat, ¬image.take 2 = [255, 216] →
      containsSeq ftypSig (image.take 64) = true → xaPixelClass image = .jpeg2000Raw) := by
  constructor
  · intro bits rows cols image
    unfold hinacomPixel
    by_cases h : (image.drop 16).take 7 = ftypjp2sig ∧ image.length ≠ pxSize bits rows cols
    · rw [if_pos h]
      simp [h]
    · rw [if_neg h]
      exact iff_of_false (by simp) h
  · intro image h1 h2
    unfold xaPixelClass
    have hj : parse_jpeg_header image = none := by
      unfold parse_jpeg_header
      rw [if_pos (Or.inr h1)]
    simp only [hj]
    rw [if_pos (Or.inr h2)]

theorem pixelClassification_spec_witness :
    ¬ftypSig.take 2 = [255, 216] ∧
    containsSeq ftypSig (ftypSig.take 64) = true ∧
    xaPixelClass ftypSig = .jpeg2000Raw :=
  ⟨by decide, by decide, pixelClassification_spec.2 ftypSig (by decide) (by decide)⟩

